import Mathlib

/-!
# Verification of `grapple_db` stream pagination

A shallow embedding of the pagination layer of the `grapple_db` crate:
the `PagableCharybdisStream` struct and the `Pagable` trait
(`src/scylla/stream.rs` and `src/lib.rs`).

The underlying `CharybdisModelStream<E>` is modelled as a finite list of
items, each either a successfully decoded row (`Item.ok`) or a decoding /
driver error (`Item.err`); `stream.next().await` returns the head (if any)
and leaves the tail.  The paginated stream state carries the remaining
source items, the page size `per_page`, and the buffer `page_items`, and
each method of the `impl Pagable for PagableCharybdisStream` is translated
to a state-passing function.
-/

set_option autoImplicit false

namespace GrappleDB

universe u

/-- One element yielded by the underlying Charybdis model stream:
`Ok(item)` or `Err(_)` (the error payload is irrelevant to pagination). -/
inductive Item (E : Type u) where
  | ok : E → Item E
  | err : Item E
deriving DecidableEq

/-- The state of `PagableCharybdisStream<E>`: the remaining source
(`stream`), the page size (`per_page`), and the current page buffer
(`page_items`).  Field names follow the Rust struct. -/
structure PagableCharybdisStream (E : Type u) where
  stream : List (Item E)
  per_page : Nat
  page_items : List E
deriving DecidableEq

variable {E : Type u}

/-- `PagableCharybdisStream::new(stream, per_page)`: fresh state with an
empty buffer. -/
def new (stream : List (Item E)) (per_page : Nat) : PagableCharybdisStream E :=
  ⟨stream, per_page, []⟩

/-- The `for _ in 0..self.per_page` loop of `next_page`: pull up to `n`
items, pushing each `Ok` item and breaking on `None` (source exhausted) or
`Some(Err(_))` (error consumed but not buffered).  Returns the collected
items and the remaining source. -/
def nextPageLoop : List (Item E) → Nat → List E × List (Item E)
  | s, 0 => ([], s)
  | [], _ + 1 => ([], [])
  | Item.ok e :: rest, n + 1 =>
      let r := nextPageLoop rest n
      (e :: r.1, r.2)
  | Item.err :: rest, _ + 1 => ([], rest)

/-- `next_page`: clear the buffer, run the pull loop, and return `None`
when nothing was collected (`available == 0`), else the collected page. -/
def next_page (st : PagableCharybdisStream E) :
    Option (List E) × PagableCharybdisStream E :=
  let r := nextPageLoop st.stream st.per_page
  (if r.1.isEmpty then none else some r.1,
   { st with stream := r.2, page_items := r.1 })

/-- The `for _ in 0..self.per_page` loop of `skip_page`: pull up to `n`
items, breaking only when the source returns `None`; errors are consumed
like ordinary items. -/
def skipLoop : List (Item E) → Nat → List (Item E)
  | s, 0 => s
  | [], _ + 1 => []
  | _ :: rest, n + 1 => skipLoop rest n

/-- `skip_page`: clear the buffer and advance the source by up to
`per_page` items without storing them. -/
def skip_page (st : PagableCharybdisStream E) : PagableCharybdisStream E :=
  { st with stream := skipLoop st.stream st.per_page, page_items := [] }

/-- The `for _ in 0..page_count` loop of the default `skip_pages`
implementation, after the `i32` range `0..page_count` has been counted out
(`max page_count 0` iterations). -/
def skipPagesLoop : PagableCharybdisStream E → Nat → PagableCharybdisStream E
  | st, 0 => st
  | st, k + 1 => skipPagesLoop (skip_page st) k

/-- `Pagable::skip_pages(page_count)` (default trait implementation):
`skip_page` once per element of the `i32` range `0..page_count`, i.e.
`page_count.toNat` times. -/
def skip_pages (st : PagableCharybdisStream E) (page_count : Int) :
    PagableCharybdisStream E :=
  skipPagesLoop st page_count.toNat

/-- A source consisting of successfully decoded items only (no errors). -/
def okSource (l : List E) : List (Item E) :=
  l.map Item.ok

/-- Repeatedly call `next_page` (at most `fuel` times), collecting the
returned pages; stops at the first call returning `None`, whose pre-call
state is returned as the final state. -/
def runNextPages : Nat → PagableCharybdisStream E →
    List (List E) × PagableCharybdisStream E
  | 0, st => ([], st)
  | fuel + 1, st =>
    let r := next_page st
    match r.1 with
    | none => ([], st)
    | some p =>
        let rr := runNextPages fuel r.2
        (p :: rr.1, rr.2)

/-- One observable operation on a paginated stream (`page_items` is a pure
accessor and does not change the state, so it is modelled by `items`). -/
inductive Op where
  | next : Op
  | skip : Op
  | skips : Int → Op
  | items : Op

/-- Apply one operation to the stream state. -/
def applyOp (st : PagableCharybdisStream E) : Op → PagableCharybdisStream E
  | Op.next => (next_page st).2
  | Op.skip => skip_page st
  | Op.skips k => skip_pages st k
  | Op.items => st

/-- Apply a sequence of operations from left to right. -/
def applyOps (st : PagableCharybdisStream E) (ops : List Op) :
    PagableCharybdisStream E :=
  ops.foldl applyOp st

/-! ## Basic lemmas about the loops -/

/-- On an error-free source the pull loop takes the first `n` items and
leaves the rest. -/
theorem nextPageLoop_okSource (n : Nat) (l : List E) :
    nextPageLoop (okSource l) n = (l.take n, okSource (l.drop n)) := by
  induction n generalizing l with
  | zero => simp [nextPageLoop]
  | succ n ih =>
    cases l with
    | nil => simp [nextPageLoop, okSource]
    | cons a t =>
      have ih' := ih t
      simp only [okSource] at ih' ⊢
      simp [nextPageLoop, ih', List.map_drop]

/-- An error within the first `n` positions truncates the pull loop: the
`Ok` prefix is collected, the error is consumed, the rest is untouched. -/
theorem nextPageLoop_err (l : List E) (rest : List (Item E)) (n : Nat)
    (h : l.length < n) :
    nextPageLoop (okSource l ++ Item.err :: rest) n = (l, rest) := by
  induction l generalizing n with
  | nil =>
    obtain ⟨m, rfl⟩ := Nat.exists_eq_succ_of_ne_zero (Nat.pos_iff_ne_zero.mp h)
    simp [okSource, nextPageLoop]
  | cons a t ih =>
    obtain ⟨m, rfl⟩ := Nat.exists_eq_succ_of_ne_zero
      (Nat.pos_iff_ne_zero.mp (Nat.lt_of_le_of_lt (Nat.zero_le _) h))
    have ht : t.length < m := by
      simpa [Nat.succ_lt_succ_iff] using h
    have ih' := ih m ht
    simp only [okSource] at ih' ⊢
    simp [nextPageLoop, ih']

/-- The pull loop never collects more than `n` items. -/
theorem nextPageLoop_length_le (s : List (Item E)) (n : Nat) :
    (nextPageLoop s n).1.length ≤ n := by
  induction n generalizing s with
  | zero => simp [nextPageLoop]
  | succ n ih =>
    cases s with
    | nil => simp [nextPageLoop]
    | cons a t =>
      cases a with
      | ok e => simpa [nextPageLoop, Nat.succ_le_succ_iff] using ih t
      | err => simp [nextPageLoop]

/-- The skip loop is `List.drop`: errors count as consumed items and only
exhaustion stops it early. -/
theorem skipLoop_eq_drop (s : List (Item E)) (n : Nat) :
    skipLoop s n = s.drop n := by
  induction n generalizing s with
  | zero => simp [skipLoop]
  | succ n ih =>
    cases s with
    | nil => simp [skipLoop]
    | cons a t => simp [skipLoop, ih t]

/-- Explicit form of `next_page` on a literal state. -/
theorem next_page_mk (s : List (Item E)) (n : Nat) (b : List E) :
    next_page ⟨s, n, b⟩ =
      (if (nextPageLoop s n).1.isEmpty then none
       else some (nextPageLoop s n).1,
       ⟨(nextPageLoop s n).2, n, (nextPageLoop s n).1⟩) :=
  rfl

/-- `next_page` does not depend on the incoming buffer. -/
theorem next_page_buffer_irrel (s : List (Item E)) (n : Nat) (b b' : List E) :
    next_page ⟨s, n, b⟩ = next_page ⟨s, n, b'⟩ := by
  rw [next_page_mk, next_page_mk]

/-- `next_page` on an error-free source: take the first `n` items (as the
page when nonempty), drop them from the source, and buffer them. -/
theorem next_page_okSource (l : List E) (n : Nat) (b : List E) :
    next_page ⟨okSource l, n, b⟩ =
      (if (l.take n).isEmpty then none else some (l.take n),
       ⟨okSource (l.drop n), n, l.take n⟩) := by
  rw [next_page_mk, nextPageLoop_okSource]

/-- Unfolding of one step of `runNextPages`. -/
theorem runNextPages_succ (fuel : Nat) (st : PagableCharybdisStream E) :
    runNextPages (fuel + 1) st =
      match (next_page st).1 with
      | none => ([], st)
      | some p =>
          (p :: (runNextPages fuel (next_page st).2).1,
           (runNextPages fuel (next_page st).2).2) :=
  rfl

/-- Subtracting one full page does not change the length of the last
page: `(M - N) mod N` agrees with `M mod N` when `N ≤ M`. -/
theorem lastPage_mod_shift (M N : Nat) (h : N ≤ M) :
    (if (M - N) % N = 0 then N else (M - N) % N) =
      if M % N = 0 then N else M % N := by
  have hmod : (M - N) % N = M % N := by
    conv_rhs => rw [← Nat.sub_add_cancel h]
    rw [Nat.add_mod_right]
  rw [hmod]

/-- A nonempty final page that fits in one page has length
`M mod N`, read as `N` when `N` divides `M`. -/
theorem lastPage_len_small (M N : Nat) (h1 : 0 < M) (h2 : M ≤ N) :
    M = if M % N = 0 then N else M % N := by
  rcases Nat.lt_or_ge M N with h | h
  · rw [Nat.mod_eq_of_lt h]
    simp [Nat.pos_iff_ne_zero.mp h1]
  · have hMN : M = N := le_antisymm h2 h
    subst hMN
    simp [Nat.mod_self]

/-- Core pagination lemma: on an error-free source of `l`, with positive
page size `n` and enough fuel, the sequence of pages returned by repeated
`next_page` calls (i) is empty iff `l` is, (ii) concatenates to `l` in
order, (iii) has every non-final page of length exactly `n`, (iv) has a
final page of length `l.length mod n` (read `n` when `n` divides
`l.length`), and (v) leaves a state whose next `next_page` call returns
`None`. -/
theorem runNextPages_okSource (fuel : Nat) :
    ∀ (l b : List E) (n : Nat), 0 < n → l.length ≤ fuel →
      ((runNextPages fuel (⟨okSource l, n, b⟩ : PagableCharybdisStream E)).1
          = [] ↔ l = []) ∧
      (runNextPages fuel
          (⟨okSource l, n, b⟩ : PagableCharybdisStream E)).1.flatten = l ∧
      (∀ p ∈ (runNextPages fuel
          (⟨okSource l, n, b⟩ : PagableCharybdisStream E)).1.dropLast,
        p.length = n) ∧
      (∀ p, (runNextPages fuel
              (⟨okSource l, n, b⟩ : PagableCharybdisStream E)).1.getLast?
            = some p →
        p.length = if l.length % n = 0 then n else l.length % n) ∧
      (next_page (runNextPages fuel
          (⟨okSource l, n, b⟩ : PagableCharybdisStream E)).2).1 = none := by
  induction fuel with
  | zero =>
    intro l b n hn hl
    have hl0 : l = [] := List.length_eq_zero.mp (Nat.le_zero.mp hl)
    subst hl0
    refine ⟨by simp [runNextPages], by simp [runNextPages],
      by simp [runNextPages], by simp [runNextPages], ?_⟩
    simp [runNextPages, next_page_okSource]
  | succ fuel ih =>
    intro l b n hn hl
    cases l with
    | nil =>
      have hnone :
          (next_page (⟨okSource ([] : List E), n, b⟩ :
            PagableCharybdisStream E)).1 = none := by
        simp [next_page_okSource]
      refine ⟨?_, ?_, ?_, ?_, ?_⟩ <;>
        simp [runNextPages_succ, hnone, next_page_okSource]
    | cons a t =>
      obtain ⟨m, rfl⟩ := Nat.exists_eq_succ_of_ne_zero hn.ne'
      have hsome :
          next_page (⟨okSource (a :: t), m + 1, b⟩ :
              PagableCharybdisStream E) =
            (some ((a :: t).take (m + 1)),
             ⟨okSource ((a :: t).drop (m + 1)), m + 1,
              (a :: t).take (m + 1)⟩) := by
        rw [next_page_okSource]
        simp [List.take_succ_cons]
      have hrun :
          runNextPages (fuel + 1)
              (⟨okSource (a :: t), m + 1, b⟩ : PagableCharybdisStream E) =
            ((a :: t).take (m + 1) ::
              (runNextPages fuel
                (⟨okSource ((a :: t).drop (m + 1)), m + 1,
                  (a :: t).take (m + 1)⟩ : PagableCharybdisStream E)).1,
             (runNextPages fuel
                (⟨okSource ((a :: t).drop (m + 1)), m + 1,
                  (a :: t).take (m + 1)⟩ : PagableCharybdisStream E)).2) := by
        rw [runNextPages_succ, hsome]
      have hlen : ((a :: t).drop (m + 1)).length ≤ fuel := by
        simp only [List.length_drop, List.length_cons]
        simp only [List.length_cons] at hl
        omega
      obtain ⟨ih1, ih2, ih3, ih4, ih5⟩ :=
        ih ((a :: t).drop (m + 1)) ((a :: t).take (m + 1)) (m + 1) hn hlen
      refine ⟨?_, ?_, ?_, ?_, ?_⟩
      · rw [hrun]
        simp
      · rw [hrun]
        rw [List.flatten_cons, ih2, List.take_append_drop]
      · rw [hrun]
        by_cases hD : (a :: t).drop (m + 1) = []
        · have hp0 := ih1.mpr hD
          rw [hp0]
          simp
        · have hpne : (runNextPages fuel
              (⟨okSource ((a :: t).drop (m + 1)), m + 1,
                (a :: t).take (m + 1)⟩ : PagableCharybdisStream E)).1 ≠ [] :=
            fun hh => hD (ih1.mp hh)
          rw [List.dropLast_cons_of_ne_nil hpne]
          intro p hp
          rcases List.mem_cons.mp hp with hp | hp
          · subst hp
            have hlt : m + 1 < (a :: t).length := by
              simp only [List.drop_eq_nil_iff, not_le] at hD
              exact hD
            simp only [List.length_cons] at hlt
            simp only [List.length_take, List.length_cons]
            omega
          · exact ih3 p hp
      · rw [hrun]
        by_cases hD : (a :: t).drop (m + 1) = []
        · have hp0 := ih1.mpr hD
          rw [hp0]
          intro p hp
          simp only [List.getLast?_singleton, Option.some_inj] at hp
          subst hp
          have hle : (a :: t).length ≤ m + 1 := by
            simpa [List.drop_eq_nil_iff] using hD
          rw [List.length_take, Nat.min_eq_right hle]
          exact lastPage_len_small _ _ (by simp) hle
        · have hpne : (runNextPages fuel
              (⟨okSource ((a :: t).drop (m + 1)), m + 1,
                (a :: t).take (m + 1)⟩ : PagableCharybdisStream E)).1 ≠ [] :=
            fun hh => hD (ih1.mp hh)
          obtain ⟨q, qs, hq⟩ := List.exists_cons_of_ne_nil hpne
          rw [hq]
          intro p hp
          rw [List.getLast?_cons_cons] at hp
          have hlt : m + 1 ≤ (a :: t).length := by
            simp only [List.drop_eq_nil_iff, not_le] at hD
            exact hD.le
          have hres := ih4 p (by rw [hq] at ih4 ⊢; exact hp)
          rw [List.length_drop] at hres
          rw [hres]
          exact lastPage_mod_shift _ _ hlt
      · rw [hrun]
        exact ih5

/-- The state transition of one `next_page` call. -/
def nextPageState (st : PagableCharybdisStream E) : PagableCharybdisStream E :=
  (next_page st).2

/-- The pull loop on an exhausted source collects nothing and stays
exhausted. -/
theorem nextPageLoop_nil (n : Nat) :
    nextPageLoop ([] : List (Item E)) n = ([], []) := by
  cases n with
  | zero => rfl
  | succ n => rfl

/-- When `next_page` returns a page, that page is nonempty, fits in
`per_page`, and is exactly the new buffer. -/
theorem next_page_some (st : PagableCharybdisStream E) (p : List E)
    (st' : PagableCharybdisStream E) (h : next_page st = (some p, st')) :
    p ≠ [] ∧ p.length ≤ st.per_page ∧ st'.page_items = p := by
  obtain ⟨s, n, b⟩ := st
  rw [next_page_mk] at h
  by_cases hc : (nextPageLoop s n).1.isEmpty
  · rw [if_pos hc] at h
    exact absurd (congrArg Prod.fst h) (by simp)
  · rw [if_neg hc] at h
    have hp : (nextPageLoop s n).1 = p := by
      have := congrArg Prod.fst h
      simpa using this
    have hst := congrArg PagableCharybdisStream.page_items
      (congrArg Prod.snd h)
    refine ⟨?_, ?_, ?_⟩
    · rw [← hp]
      simpa [List.isEmpty_iff] using hc
    · rw [← hp]
      exact nextPageLoop_length_le s n
    · rw [← hst]
      exact hp

/-- The iterated skip loop is iterated `skip_page`. -/
theorem skipPagesLoop_eq_iterate (k : Nat) :
    ∀ st : PagableCharybdisStream E, skipPagesLoop st k = skip_page^[k] st := by
  induction k with
  | zero => intro st; rfl
  | succ k ih =>
    intro st
    rw [show skipPagesLoop st (k + 1) = skipPagesLoop (skip_page st) k from rfl,
      ih (skip_page st), Function.iterate_succ_apply]

/-- `skipPagesLoop` preserves the page size and the buffer bound. -/
theorem skipPagesLoop_pres (n : Nat) (k : Nat) :
    ∀ st : PagableCharybdisStream E, st.per_page = n →
      st.page_items.length ≤ n →
      (skipPagesLoop st k).per_page = n ∧
        (skipPagesLoop st k).page_items.length ≤ n := by
  induction k with
  | zero => intro st h1 h2; exact ⟨h1, h2⟩
  | succ k ih =>
    intro st h1 h2
    exact ih (skip_page st) h1 (by simp [skip_page])

/-- Every operation preserves the page size and the buffer bound. -/
theorem applyOp_pres (n : Nat) (st : PagableCharybdisStream E) (op : Op)
    (h1 : st.per_page = n) (h2 : st.page_items.length ≤ n) :
    (applyOp st op).per_page = n ∧ (applyOp st op).page_items.length ≤ n := by
  cases op with
  | next =>
    obtain ⟨s, m, b⟩ := st
    subst h1
    rw [show applyOp (⟨s, m, b⟩ : PagableCharybdisStream E) Op.next =
        (next_page ⟨s, m, b⟩).2 from rfl, next_page_mk]
    exact ⟨rfl, nextPageLoop_length_le s m⟩
  | skip => exact ⟨h1, by simp [applyOp, skip_page]⟩
  | skips k => exact skipPagesLoop_pres n k.toNat st h1 h2
  | items => exact ⟨h1, h2⟩

/-- Every operation sequence preserves the page size and the buffer
bound. -/
theorem applyOps_pres (n : Nat) (ops : List Op) :
    ∀ st : PagableCharybdisStream E, st.per_page = n →
      st.page_items.length ≤ n →
      (applyOps st ops).per_page = n ∧
        (applyOps st ops).page_items.length ≤ n := by
  induction ops with
  | nil => intro st h1 h2; exact ⟨h1, h2⟩
  | cons op ops ih =>
    intro st h1 h2
    have hstep := applyOp_pres n st op h1 h2
    exact ih (applyOp st op) hstep.1 hstep.2

/-! ## Claim theorems -/

/-- C1: for every page size `n > 0` and every error-free source of `m`
items, repeated `next_page` calls on a fresh `PagableCharybdisStream`
return pages whose concatenation in order is the source; every page except
the last has exactly `n` items, the last page has `m mod n` items (`n`
when `n` divides `m` and `m > 0`), and the call after the last page
returns no page. -/
theorem C1_next_page_pagination (l : List E) (n : Nat) (hn : 0 < n) :
    (runNextPages l.length (new (okSource l) n)).1.flatten = l ∧
    (∀ p ∈ (runNextPages l.length (new (okSource l) n)).1.dropLast,
      p.length = n) ∧
    (∀ p, (runNextPages l.length (new (okSource l) n)).1.getLast? = some p →
      p.length = if l.length % n = 0 then n else l.length % n) ∧
    (next_page (runNextPages l.length (new (okSource l) n)).2).1 = none := by
  obtain ⟨-, h2, h3, h4, h5⟩ :=
    runNextPages_okSource l.length l [] n hn le_rfl
  exact ⟨h2, h3, h4, h5⟩

/-- Witness for C1: page size three on a five-item source gives pages of
sizes three and two, then no page. -/
theorem C1_witness :
    0 < 3 ∧
    ((runNextPages (List.length [1, 2, 3, 4, 5])
        (new (okSource [1, 2, 3, 4, 5]) 3)).1.flatten = [1, 2, 3, 4, 5] ∧
    (∀ p ∈ (runNextPages (List.length [1, 2, 3, 4, 5])
        (new (okSource [1, 2, 3, 4, 5]) 3)).1.dropLast, p.length = 3) ∧
    (∀ p, (runNextPages (List.length [1, 2, 3, 4, 5])
          (new (okSource [1, 2, 3, 4, 5]) 3)).1.getLast? = some p →
      p.length = if (List.length [1, 2, 3, 4, 5]) % 3 = 0 then 3
        else (List.length [1, 2, 3, 4, 5]) % 3) ∧
    (next_page (runNextPages (List.length [1, 2, 3, 4, 5])
        (new (okSource [1, 2, 3, 4, 5]) 3)).2).1 = none) :=
  ⟨by decide, C1_next_page_pagination [1, 2, 3, 4, 5] 3 (by decide)⟩

/-- C2: `next_page` never surfaces a source error.  When the source
yields `l` successes and then an error within one page, the error is
consumed but not buffered, pulling stops, and the successes collected so
far are returned as the page (no page when there are none); the items
after the error stay in the source. -/
theorem C2_next_page_swallows_error (l b : List E) (rest : List (Item E))
    (n : Nat) (h : l.length < n) :
    next_page (⟨okSource l ++ Item.err :: rest, n, b⟩ :
        PagableCharybdisStream E) =
      (if l.isEmpty then none else some l,
       ⟨rest, n, l⟩) := by
  rw [next_page_mk, nextPageLoop_err l rest n h]

/-- Witness for C2: two successes, an error, then three more successes,
with page size five: the first page has exactly the two successes. -/
theorem C2_witness :
    List.length [1, 2] < 5 ∧
    next_page (⟨okSource [1, 2] ++
        Item.err :: [Item.ok 3, Item.ok 4, Item.ok 5], 5, []⟩ :
        PagableCharybdisStream Nat) =
      (some [1, 2], ⟨[Item.ok 3, Item.ok 4, Item.ok 5], 5, [1, 2]⟩) := by
  refine ⟨by decide, ?_⟩
  have h := C2_next_page_swallows_error [1, 2] []
    [Item.ok 3, Item.ok 4, Item.ok 5] 5 (by decide)
  simpa using h

/-- C9: with `per_page = 0` (the constructor does not reject it),
`next_page` always returns no page and leaves the source untouched, and
`skip_page` consumes nothing from the source: the stream never makes
progress. -/
theorem C9_zero_page_size (s : List (Item E)) (b : List E) :
    next_page (⟨s, 0, b⟩ : PagableCharybdisStream E) = (none, ⟨s, 0, []⟩) ∧
    skip_page (⟨s, 0, b⟩ : PagableCharybdisStream E) = ⟨s, 0, []⟩ := by
  constructor
  · rw [next_page_mk]
    simp [nextPageLoop]
  · simp [skip_page, skipLoop]

/-- C10: `skip_pages(page_count)` with `page_count ≤ 0` iterates over the
empty range `0..page_count` and leaves the whole state (source position
and buffer) unchanged. -/
theorem C10_skip_pages_nonpos (st : PagableCharybdisStream E) (k : Int)
    (h : k ≤ 0) :
    skip_pages st k = st := by
  unfold skip_pages
  rw [Int.toNat_of_nonpos h]
  rfl

/-- Witness for C10: skipping `-3` pages is the identity. -/
theorem C10_witness :
    skip_pages (new ([Item.ok 1] : List (Item Nat)) 2) (-3) =
      new [Item.ok 1] 2 :=
  C10_skip_pages_nonpos (new [Item.ok 1] 2) (-3) (by decide)

/-- C3 counterexample: the claim quantifies over every source, but with
source `[err, ok 1]` and page size one the first `next_page` call returns
no page (the error is swallowed) while the second call returns the page
`[1]`: a "no page" result is not terminal in the presence of errors. -/
theorem C3_counterexample :
    (next_page (new ([Item.err, Item.ok 1] : List (Item Nat)) 1)).1
      = none ∧
    (next_page
        (next_page (new ([Item.err, Item.ok 1] : List (Item Nat)) 1)).2).1
      = some [1] := by
  constructor
  · rfl
  · rfl

/-- C3 amended: for every source that yields no errors (and every page
size), once `next_page` has returned no page, every later call also
returns no page and the buffer stays empty. -/
theorem C3_no_page_terminal (l b : List E) (n k : Nat)
    (h : (next_page (⟨okSource l, n, b⟩ :
      PagableCharybdisStream E)).1 = none) :
    (next_page (nextPageState^[k]
        (next_page (⟨okSource l, n, b⟩ :
          PagableCharybdisStream E)).2)).1 = none ∧
    (nextPageState^[k]
        (next_page (⟨okSource l, n, b⟩ :
          PagableCharybdisStream E)).2).page_items = [] := by
  have key : ∀ st : PagableCharybdisStream E,
      next_page st = (none, st) → st.page_items = [] →
      (next_page (nextPageState^[k] st)).1 = none ∧
        (nextPageState^[k] st).page_items = [] := by
    intro st hfix hbuf
    have hfp : nextPageState st = st := by
      rw [nextPageState, hfix]
    rw [Function.iterate_fixed hfp]
    exact ⟨by rw [hfix], hbuf⟩
  rw [next_page_okSource] at h ⊢
  have htake : l.take n = [] := by
    by_cases hc : (l.take n).isEmpty
    · exact List.isEmpty_iff.mp hc
    · rw [if_neg hc] at h
      exact absurd h (by simp)
  rw [htake]
  rcases List.take_eq_nil_iff.mp htake with hn0 | hl0
  · subst hn0
    have hdrop : l.drop 0 = l := List.drop_zero l
    rw [hdrop]
    refine key _ ?_ rfl
    rw [next_page_mk]
    simp [nextPageLoop]
  · subst hl0
    have hdrop : ([] : List E).drop n = [] := by simp
    rw [hdrop]
    refine key _ ?_ rfl
    simp [okSource, next_page_mk, nextPageLoop_nil]

/-- Witness for C3's amended theorem: an exhausted error-free source stays
exhausted two calls later. -/
theorem C3_witness :
    (next_page (⟨okSource ([] : List Nat), 1, []⟩ :
      PagableCharybdisStream Nat)).1 = none ∧
    ((next_page (nextPageState^[2]
        (next_page (⟨okSource ([] : List Nat), 1, []⟩ :
          PagableCharybdisStream Nat)).2)).1 = none ∧
    (nextPageState^[2]
        (next_page (⟨okSource ([] : List Nat), 1, []⟩ :
          PagableCharybdisStream Nat)).2).page_items = []) :=
  ⟨by decide, C3_no_page_terminal [] [] 1 2 (by decide)⟩

/-- C4 counterexample: the claim quantifies over every source, but with
source `[err, err, ok 7]` and page size two, `skip_page` then `next_page`
yields the page `[7]`, while two `next_page` calls yield no page on the
second call (the first call stops at the first error, the second at the
second error). -/
theorem C4_counterexample :
    (next_page (skip_page
        (new ([Item.err, Item.err, Item.ok 7] : List (Item Nat)) 2))).1
      = some [7] ∧
    (next_page (next_page
        (new ([Item.err, Item.err, Item.ok 7] : List (Item Nat)) 2)).2).1
      = none := by
  constructor
  · rfl
  · rfl

/-- C4 amended: after `skip_page` the buffer is empty (for every source),
and for every source that yields no errors, `skip_page` followed by
`next_page` is exactly `next_page` twice with the first result discarded:
the second fetch starts strictly after the skipped page. -/
theorem C4_skip_then_next (n : Nat) (b : List E) :
    (∀ s : List (Item E),
      (skip_page (⟨s, n, b⟩ : PagableCharybdisStream E)).page_items = []) ∧
    ∀ l : List E,
      next_page (skip_page (⟨okSource l, n, b⟩ :
          PagableCharybdisStream E)) =
        next_page (next_page (⟨okSource l, n, b⟩ :
          PagableCharybdisStream E)).2 := by
  constructor
  · intro s
    rfl
  · intro l
    have h1 : skip_page (⟨okSource l, n, b⟩ : PagableCharybdisStream E) =
        ⟨okSource (l.drop n), n, []⟩ := by
      simp [skip_page, skipLoop_eq_drop, okSource, List.map_drop]
    have h2 : (next_page (⟨okSource l, n, b⟩ :
        PagableCharybdisStream E)).2 =
        ⟨okSource (l.drop n), n, l.take n⟩ := by
      rw [next_page_okSource]
    rw [h1, h2]
    exact next_page_buffer_irrel _ _ _ _

/-- C5: along every operation sequence from a fresh stream the buffer
holds at most `per_page` items, and whenever `next_page` returns a page it
is nonempty (an empty collection collapses to no page), holds at most
`per_page` items, and is the new buffer contents. -/
theorem C5_page_invariants (s : List (Item E)) (n : Nat) :
    (∀ ops : List Op,
      (applyOps (new s n) ops).page_items.length ≤ n) ∧
    (∀ (ops : List Op) (p : List E) (st' : PagableCharybdisStream E),
      next_page (applyOps (new s n) ops) = (some p, st') →
      p ≠ [] ∧ p.length ≤ n ∧ st'.page_items.length ≤ n) := by
  have hnew : (new s n : PagableCharybdisStream E).per_page = n ∧
      (new s n : PagableCharybdisStream E).page_items.length ≤ n :=
    ⟨rfl, by simp [new]⟩
  refine ⟨?_, ?_⟩
  · intro ops
    exact (applyOps_pres n ops (new s n) hnew.1 hnew.2).2
  · intro ops p st' h
    have hpres := applyOps_pres n ops (new s n) hnew.1 hnew.2
    obtain ⟨hne, hlen, hbuf⟩ := next_page_some _ p st' h
    rw [hpres.1] at hlen
    refine ⟨hne, hlen, ?_⟩
    rw [hbuf]
    exact hlen

/-- Witness for C5: a one-item page on a two-item source with page size
one, via a concrete `next_page` result. -/
theorem C5_witness :
    (∀ ops2 : List Op,
      (applyOps (new ([Item.ok 1, Item.ok 2] : List (Item Nat)) 1)
        ops2).page_items.length ≤ 1) ∧
    ([1] ≠ [] ∧ List.length [1] ≤ 1 ∧
      (⟨[Item.ok 2], 1, [1]⟩ :
        PagableCharybdisStream Nat).page_items.length ≤ 1) :=
  ⟨(C5_page_invariants [Item.ok 1, Item.ok 2] 1).1,
   (C5_page_invariants [Item.ok 1, Item.ok 2] 1).2 [] [1]
     ⟨[Item.ok 2], 1, [1]⟩ (by decide)⟩

/-- C6: for `k ≥ 0`, `skip_pages k` is exactly `skip_page` iterated `k`
times, so following either with `next_page` yields the same page.  The
default `skip_pages` does no bulk optimization. -/
theorem C6_skip_pages_eq_iterated (st : PagableCharybdisStream E)
    (k : Int) (h : 0 ≤ k) :
    skip_pages st k = skip_page^[k.toNat] st ∧
    next_page (skip_pages st k) = next_page (skip_page^[k.toNat] st) := by
  have h1 : skip_pages st k = skip_page^[k.toNat] st :=
    skipPagesLoop_eq_iterate k.toNat st
  exact ⟨h1, by rw [h1]⟩

/-- Witness for C6: skipping one page of size one. -/
theorem C6_witness :
    (0 : Int) ≤ 1 ∧
    (skip_pages (new [Item.ok 1, Item.ok 2] 1) 1 =
      skip_page^[(1 : Int).toNat] (new ([Item.ok 1, Item.ok 2] :
        List (Item Nat)) 1) ∧
    next_page (skip_pages (new [Item.ok 1, Item.ok 2] 1) 1) =
      next_page (skip_page^[(1 : Int).toNat] (new ([Item.ok 1, Item.ok 2] :
        List (Item Nat)) 1))) :=
  ⟨by decide,
   C6_skip_pages_eq_iterated (new [Item.ok 1, Item.ok 2] 1) 1 (by decide)⟩

/-- C7: `page_items` reads the buffer: it is empty on a fresh stream,
empty immediately after `skip_page`, and immediately after a `next_page`
that returned a page it is that same page. -/
theorem C7_page_items_accessor (s : List (Item E)) (n : Nat) :
    (new s n : PagableCharybdisStream E).page_items = [] ∧
    (∀ st : PagableCharybdisStream E, (skip_page st).page_items = []) ∧
    (∀ (st st' : PagableCharybdisStream E) (p : List E),
      next_page st = (some p, st') → st'.page_items = p) :=
  ⟨rfl, fun _ => rfl, fun st st' p h => (next_page_some st p st' h).2.2⟩

/-- Witness for C7 on a one-item source. -/
theorem C7_witness :
    (new ([] : List (Item Nat)) 0).page_items = [] ∧
    (skip_page (new ([Item.ok 4] : List (Item Nat)) 1)).page_items = [] ∧
    (⟨[], 1, [4]⟩ : PagableCharybdisStream Nat).page_items = [4] :=
  ⟨(C7_page_items_accessor [] 0).1,
   (C7_page_items_accessor [] 0).2.1 (new [Item.ok 4] 1),
   (C7_page_items_accessor [] 0).2.2 (new [Item.ok 4] 1) ⟨[], 1, [4]⟩ [4]
     (by decide)⟩

/-- C8: `skip_page` stops early only on exhaustion — its loop drops
exactly `per_page` source items, errors included — while `next_page`
stops at the first error, leaving exactly the items after it; hence after
a skip the source can only be positioned at or beyond the position left
by a fetch over the same error-containing prefix. -/
theorem C8_skip_past_errors (n : Nat) (b l : List E)
    (rest : List (Item E)) (h : l.length < n) :
    (∀ s : List (Item E),
      (skip_page (⟨s, n, b⟩ : PagableCharybdisStream E)).stream =
        s.drop n) ∧
    (next_page (⟨okSource l ++ Item.err :: rest, n, b⟩ :
        PagableCharybdisStream E)).2.stream = rest ∧
    ((okSource l ++ Item.err :: rest).drop n).length ≤ rest.length := by
  refine ⟨?_, ?_, ?_⟩
  · intro s
    simp [skip_page, skipLoop_eq_drop]
  · rw [next_page_mk, nextPageLoop_err l rest n h]
  · simp only [List.length_drop, List.length_append, List.length_cons,
      okSource, List.length_map]
    omega

/-- Witness for C8: one success then an error under page size three. -/
theorem C8_witness :
    List.length [1] < 3 ∧
    ((∀ s : List (Item Nat),
      (skip_page (⟨s, 3, []⟩ : PagableCharybdisStream Nat)).stream =
        s.drop 3) ∧
    (next_page (⟨okSource [1] ++ Item.err :: [Item.ok 2, Item.ok 3], 3,
        []⟩ : PagableCharybdisStream Nat)).2.stream =
      [Item.ok 2, Item.ok 3] ∧
    ((okSource [1] ++ Item.err :: [Item.ok 2, Item.ok 3]).drop 3).length ≤
      (List.length [Item.ok 2, Item.ok 3])) :=
  ⟨by decide, C8_skip_past_errors 3 [] [1] [Item.ok 2, Item.ok 3]
    (by decide)⟩

end GrappleDB
